import Mathlib

/-!
Verification development for the exchangelib schema / wire-codec core
(`src/exchangelib/properties.py`). We shallowly embed the data model and the
operations the claims concern: the `Fields` schema container, the `EWSElement`
base behaviour (construction, structural hashing and equality, `clean` /
`from_xml` normalisation for timezone transitions), the `IdChangeKeyMixIn`
identity delegation, and the timezone reconciliation algorithms
(`TimeZone.from_server_timezone` and `TimeZone.to_server_timezone`).

Python's built-in `hash` on tuples is abstracted as injective on the
structural key actually fed to it: we model an entity's hash as the tuple of
folded field values itself (`codeHashKey`), so hash equality is equality of
those tuples. All claims about hashing in the specification are phrased at
this structural level.
-/

namespace Exchangelib

/-- Scalar native values (the elements list-valued fields may hold). -/
inductive Scalar where
  | snone : Scalar
  | sint (n : Int) : Scalar
  | sstr (s : String) : Scalar
deriving DecidableEq, Repr

/-- Native field values as stored on an entity. `Val.none` models Python
`None`; list-valued fields store `Val.vlist`. -/
inductive Val where
  | none : Val
  | int (n : Int) : Val
  | str (s : String) : Val
  | vlist (vs : List Scalar) : Val
deriving DecidableEq, Repr

/-- Python truthiness on our value domain: `None`, `0`, `""` and `[]` are
falsy, everything else truthy. -/
def pyTruthy : Val → Bool
  | .none => false
  | .int n => n != 0
  | .str s => s != ""
  | .vlist vs => !vs.isEmpty

/-- A field descriptor, as far as hashing, construction and the schema
container are concerned: its name, whether it is a list-valued field
(`is_list` on `Field`), and — for `EnumField`s — the enum's 1-based wire
strings (`WEEKDAY_NAMES` etc.), used by `EnumField.as_string`. -/
structure Field where
  name : String
  is_list : Bool := false
  is_enum : Bool := false
  enum_values : List String := []
deriving DecidableEq, Repr

/-- An entity instance: its class tag (`ELEMENT_NAME`/class identity — never
inspected by `__eq__`/`__hash__`), its `FIELDS` schema, and its stored
attribute values, positionally aligned with the schema. -/
structure Entity where
  tag : String
  schema : List Field
  vals : List Val
deriving DecidableEq, Repr

/-- `tuple(value or ())` applied to a list field's stored value: a falsy
value (`None` or the empty list) becomes the empty tuple, a non-empty list
stays itself. -/
def foldListVal : Val → Val
  | .none => .vlist []
  | .vlist vs => .vlist vs
  | v => v

/-- The structural key fed to `hash` by `EWSElement.__hash__`: the tuple of
the entity's raw field values in schema declaration order, with list-valued
fields folded through `foldListVal`. Field names and the class of the entity
do not enter the key. -/
def codeHashKey (e : Entity) : List Val :=
  (e.schema.zip e.vals).map fun fv => if fv.1.is_list then foldListVal fv.2 else fv.2

/-- `EWSElement.__eq__`: `hash(self) == hash(other)`, with Python's tuple
hash abstracted as injective on the structural key. -/
def codeEq (a b : Entity) : Bool :=
  codeHashKey a == codeHashKey b

/-- `EnumField.as_string`: map a 1-based integer enum value to its wire
string; non-integer values are returned unchanged. -/
def enumAsString (f : Field) (v : Val) : Val :=
  match v with
  | .int n =>
      if h : 0 < n ∧ n.toNat ≤ f.enum_values.length then
        .str (f.enum_values.get ⟨n.toNat - 1, by omega⟩)
      else v
  | _ => v

/-- Normalisation of one field value as the specification describes the hash:
list fields folded to a tuple, enum fields normalised to their canonical wire
string. -/
def specNormalize (f : Field) (v : Val) : Val :=
  if f.is_list then foldListVal v
  else if f.is_enum then enumAsString f v
  else v

/-- The hash key as the specification describes it: the ordered tuple of
(field name, normalized value) pairs in schema declaration order. This is the
spec's wording, written down to be compared with `codeHashKey`. -/
def specHashKey (e : Entity) : List (String × Val) :=
  (e.schema.zip e.vals).map fun fv => (fv.1.name, specNormalize fv.1 fv.2)

/-- Equality as the specification describes it: equal iff the spec hash keys
match. -/
def specEq (a b : Entity) : Bool :=
  specHashKey a == specHashKey b

/-- Look a keyword up in a keyword-argument list; `kwargs.pop(name, None)`
yields `None` when the keyword is absent. -/
def lookupVal (kwargs : List (String × Val)) (n : String) : Val :=
  match kwargs.lookup n with
  | some v => v
  | Option.none => .none

/-- Errors raised by construction (`EWSElement.__init__`). -/
inductive InitError where
  | unexpectedAttribute (names : List String) : InitError
deriving DecidableEq, Repr

/-- `EWSElement.__init__`: pop each declared field's keyword (defaulting to
`None`); any keyword left over makes construction fail with an
`AttributeError` naming exactly the offending keys, in order. -/
def ewsInit (tag : String) (schema : List Field) (kwargs : List (String × Val)) :
    Except InitError Entity :=
  let names := schema.map (·.name)
  let leftover := kwargs.filter fun kv => !names.contains kv.1
  if leftover.isEmpty then
    .ok ⟨tag, schema, schema.map fun f => lookupVal kwargs f.name⟩
  else
    .error (.unexpectedAttribute (leftover.map (·.1)))

/-- Attribute read on an entity: the stored value of the first schema field
with the given name. -/
def Entity.getattr (e : Entity) (n : String) : Option Val :=
  ((e.schema.map (·.name)).zip e.vals).lookup n

/-! ## The `Fields` schema container -/

/-- Errors raised by the `Fields` container (`ValueError: Field ... is a
duplicate` carries the offending field's name here). -/
inductive SchemaError where
  | duplicateField (name : String) : SchemaError
deriving DecidableEq, Repr

/-- The `Fields` collection: an ordered list of field descriptors. The
name-index `_dict` is implicit — the operations below re-check duplicate
names exactly where the source does. -/
structure FieldsC where
  fields : List Field
deriving DecidableEq, Repr

/-- The duplicate scan performed by `Fields.__init__` while filling `_dict`:
returns the first field name already seen, if any. -/
def firstDupName : List Field → List String → Option String
  | [], _ => Option.none
  | f :: fs, seen =>
      if seen.contains f.name then some f.name else firstDupName fs (f.name :: seen)

/-- `Fields.__init__`: build the container, failing on the first duplicate
field name. -/
def mkFields (fs : List Field) : Except SchemaError FieldsC :=
  match firstDupName fs [] with
  | some n => .error (.duplicateField n)
  | Option.none => .ok ⟨fs⟩

/-- `Fields.insert(index, field)`: fails when the name is already present,
otherwise inserts at the position (Python's `list.insert` clamps an index
past the end). -/
def FieldsC.insertAt (c : FieldsC) (idx : Nat) (f : Field) : Except SchemaError FieldsC :=
  if (c.fields.map (·.name)).contains f.name then .error (.duplicateField f.name)
  else .ok ⟨c.fields.take idx ++ f :: c.fields.drop idx⟩

/-- `Fields.copy`: `self.__class__(*self)`. -/
def FieldsC.copy (c : FieldsC) : Except SchemaError FieldsC :=
  mkFields c.fields

/-- `Fields.__add__`: `self.__class__(*(list concatenation))`. -/
def FieldsC.add (c d : FieldsC) : Except SchemaError FieldsC :=
  mkFields (c.fields ++ d.fields)

/-- `Fields.__getitem__` on a slice `[a:b]`: `self.__class__(*res)` where
`res` is the sliced plain list. -/
def FieldsC.slice (c : FieldsC) (a b : Nat) : Except SchemaError FieldsC :=
  mkFields ((c.fields.drop a).take (b - a))

/-! ## Identity delegation (`IdChangeKeyMixIn`) -/

/-- The nested identity element (`ItemId`): an `id` and a `changekey` slot,
each individually nullable. -/
structure ItemId where
  id : Val := .none
  changekey : Val := .none
deriving DecidableEq, Repr

/-- An identity-delegating entity: its non-identity schema and values plus
the private `_id` slot holding the nested identity element (if any). -/
structure IdCkEntity where
  tag : String
  schema : List Field
  vals : List Val
  theId : Option ItemId
deriving DecidableEq, Repr

/-- `IdChangeKeyMixIn.__init__`: pop `id` and `changekey`, build the nested
identity element, store it only when `id` or `changekey` is truthy, and hand
the remaining keywords to `EWSElement.__init__`. (The private `_id` slot is
modelled by `theId`; it is not part of the public construction surface.) -/
def idckInit (tag : String) (schema : List Field) (kwargs : List (String × Val)) :
    Except InitError IdCkEntity :=
  let idv := lookupVal kwargs "id"
  let ckv := lookupVal kwargs "changekey"
  let rest := kwargs.filter fun kv => !(kv.1 == "id" || kv.1 == "changekey")
  let theId := if pyTruthy idv || pyTruthy ckv then some ⟨idv, ckv⟩ else Option.none
  match ewsInit tag schema rest with
  | .ok e => .ok ⟨tag, schema, e.vals, theId⟩
  | .error err => .error err

/-- The `id` property getter: `None` when no nested instance exists. -/
def idOf (e : IdCkEntity) : Val :=
  match e.theId with
  | Option.none => .none
  | some i => i.id

/-- The `changekey` property getter: `None` when no nested instance exists. -/
def ckOf (e : IdCkEntity) : Val :=
  match e.theId with
  | Option.none => .none
  | some i => i.changekey

/-- The `id` property setter: lazily create an empty nested instance, then
set only the `id` attribute on it. -/
def setId (e : IdCkEntity) (v : Val) : IdCkEntity :=
  match e.theId with
  | Option.none => { e with theId := some ⟨v, .none⟩ }
  | some i => { e with theId := some ⟨v, i.changekey⟩ }

/-- The `changekey` property setter: lazily create an empty nested instance,
then set only the `changekey` attribute on it. -/
def setCk (e : IdCkEntity) (v : Val) : IdCkEntity :=
  match e.theId with
  | Option.none => { e with theId := some ⟨.none, v⟩ }
  | some i => { e with theId := some ⟨i.id, v⟩ }

/-- The structural key fed to `hash` by `IdChangeKeyMixIn.__hash__`: the pair
`(id, changekey)` when `id` is truthy, otherwise the full structural key over
all fields produced by the inherited `EWSElement.__hash__` — the `_id` slot
together with the remaining field values folded exactly as `codeHashKey`
folds them (`tuple(value or ())` on list-valued fields). -/
inductive IdHKey where
  | byId (id changekey : Val) : IdHKey
  | structural (theId : Option ItemId) (vs : List Val) : IdHKey
deriving DecidableEq, Repr

/-- `IdChangeKeyMixIn.__hash__` at the structural level: the fallback branch
is `super().__hash__()`, so the non-identity field values go through the same
list-field folding as in `EWSElement.__hash__`. -/
def idckHashKey (e : IdCkEntity) : IdHKey :=
  if pyTruthy (idOf e) then .byId (idOf e) (ckOf e)
  else .structural e.theId (codeHashKey ⟨e.tag, e.schema, e.vals⟩)

/-- `IdChangeKeyMixIn.__eq__` (for non-tuple operands): inherited hash
comparison. -/
def idckEq (a b : IdCkEntity) : Bool :=
  idckHashKey a == idckHashKey b

/-! ## Timezone descriptors and reconciliation -/

/-- A `StandardTime`/`DaylightTime` transition descriptor with all required
fields set: bias (minutes), time of day (seconds since midnight), n-th
occurrence of the weekday in the month, ISO month, and weekday. -/
structure TZTransition where
  bias : Int
  time : Int
  occurrence : Int
  iso_month : Int
  weekday : Int
deriving DecidableEq, Repr

/-- The `TimeZone` entity: base UTC bias in minutes plus optional
standard/daylight transition descriptors. Structural equality of this
structure coincides with the generic hash-based `__eq__` on well-typed
`TimeZone` values (no list fields are involved). -/
structure TimeZone where
  bias : Int
  standard_time : Option TZTransition := Option.none
  daylight_time : Option TZTransition := Option.none
deriving DecidableEq, Repr

/-- A server period record: its name (`Standard`/`Daylight`) and its bias as
a `timedelta`, kept in whole seconds. -/
structure Period where
  name : String
  biasSeconds : Int
deriving DecidableEq, Repr

/-- A server transition record. `simple` is a record holding only its `to`
key (`len(transition) == 1`); `full` additionally holds the time-of-day
offset (a `timedelta` since midnight, in seconds), the occurrence, the ISO
month and the ISO weekday. -/
inductive Transition where
  | simple (toKey : Int × String) : Transition
  | full (toKey : Int × String) (offsetSeconds occurrence iso_month iso_weekday : Int) : Transition
deriving DecidableEq, Repr

/-- The `to` key of a transition record. -/
def Transition.toKey' : Transition → Int × String
  | .simple t => t
  | .full t _ _ _ _ => t

/-- Errors raised by the timezone algorithms. -/
inductive TZError where
  | noStandardBias : TZError
  | noValidTransition : TZError
  | keyError : TZError
  | badGroupSize : TZError
  | invalidOffset : TZError
  | unknownTransition : TZError
  | noMatchingTimezone : TZError
deriving DecidableEq, Repr

/-- Insert into a list sorted by `le` (used to model Python's `sorted`; all
keys sorted here are distinct dictionary keys, so stability is moot). -/
def insortBy (le : α → α → Bool) (a : α) : List α → List α
  | [] => [a]
  | b :: bs => if le a b then a :: b :: bs else b :: insortBy le a bs

/-- Sort a list by `le` (insertion sort). -/
def sortBy (le : α → α → Bool) (l : List α) : List α :=
  l.foldr (insortBy le) []

/-- Lexicographic order on period keys `(year, period_type)`, as Python
compares the tuples. -/
def pkeyLE (a b : Int × String) : Bool :=
  a.1 < b.1 || (a.1 == b.1 && decide (a.2 ≤ b.2))

/-- Dictionary lookup (`d[k]`, first match). -/
def dlookup [DecidableEq α] : List (α × β) → α → Option β
  | [], _ => Option.none
  | (k, v) :: rest, k2 => if k = k2 then some v else dlookup rest k2

/-- The scan inside `TimeZone._get_bias`: walk the periods sorted by key,
skip non-`Standard` periods, stop at the first one past `for_year`, and keep
the latest surviving period's bias converted to minutes
(`int(total_seconds()) // 60`, floor division). -/
def getBiasAux (forYear : Int) : List ((Int × String) × Period) → Option Int → Option Int
  | [], acc => acc
  | ((y, t), p) :: rest, acc =>
      if t ≠ "Standard" then getBiasAux forYear rest acc
      else if y > forYear then acc
      else getBiasAux forYear rest (some (Int.fdiv p.biasSeconds 60))

/-- `TimeZone._get_bias`. -/
def getBias (periods : List ((Int × String) × Period)) (forYear : Int) : Except TZError Int :=
  match getBiasAux forYear (sortBy (fun a b => pkeyLE a.1 b.1) periods) Option.none with
  | some b => .ok b
  | Option.none => .error .noStandardBias

/-- The scan inside `TimeZone._get_valid_transition_id`: walk the transitions
sorted by group id, stop at the first one whose (truthy) from-date lies past
`for_year`, and keep the latest surviving group id. -/
def getTgAux (forYear : Int) : List (String × Option Int) → Option String → Option String
  | [], acc => acc
  | (tg, fd) :: rest, acc =>
      match fd with
      | some y => if y > forYear then acc else getTgAux forYear rest (some tg)
      | Option.none => getTgAux forYear rest (some tg)

/-- `TimeZone._get_valid_transition_id`. -/
def getValidTransitionId (transitions : List (String × Option Int)) (forYear : Int) :
    Except TZError String :=
  match getTgAux forYear (sortBy (fun a b => decide (a.1 ≤ b.1)) transitions) Option.none with
  | some tg => .ok tg
  | Option.none => .error .noValidTransition

/-- The dummy `StandardTime` synthesized for a simple (no-DST) transition:
`StandardTime(bias=0, time=datetime.time(0), occurrence=1, iso_month=1,
weekday=1)`. -/
def dummyStandard : TZTransition := ⟨0, 0, 1, 1, 1⟩

/-- The dummy `DaylightTime` synthesized for a simple (no-DST) transition:
`DaylightTime(bias=0, time=datetime.time(0), occurrence=5, iso_month=12,
weekday=7)`. -/
def dummyDaylight : TZTransition := ⟨0, 0, 5, 12, 7⟩

/-- The loop of `TimeZone._get_std_and_dst`: for each transition, look its
`to` period up; a simple transition overwrites both slots with the dummy
descriptors; a full transition must have a time-of-day offset within one day
and fills the `Standard` slot with bias 0 or the `Daylight` slot with the
period's bias (minutes) minus the base bias. -/
def stdDstAux (periods : List ((Int × String) × Period)) (bias : Int) :
    List Transition → Option TZTransition × Option TZTransition →
    Except TZError (Option TZTransition × Option TZTransition)
  | [], acc => .ok acc
  | tr :: rest, (st, dt) =>
      match dlookup periods tr.toKey' with
      | Option.none => .error .keyError
      | some p =>
        match tr with
        | .simple _ => stdDstAux periods bias rest (some dummyStandard, some dummyDaylight)
        | .full _ off occ im wd =>
            if 0 ≤ off ∧ off < 86400 then
              if p.name = "Standard" then
                stdDstAux periods bias rest (some ⟨0, off, occ, im, wd⟩, dt)
              else if p.name = "Daylight" then
                stdDstAux periods bias rest
                  (st, some ⟨Int.fdiv p.biasSeconds 60 - bias, off, occ, im, wd⟩)
              else .error .unknownTransition
            else .error .invalidOffset

/-- `TimeZone.from_server_timezone`: derive a `TimeZone` from the raw server
periods/transitions/transition-groups tables for a target year. -/
def from_server_timezone (periods : List ((Int × String) × Period))
    (transitions : List (String × Option Int))
    (transitionsgroups : List (String × List Transition)) (forYear : Int) :
    Except TZError TimeZone :=
  match getBias periods forYear with
  | .error e => .error e
  | .ok bias =>
    match getValidTransitionId transitions forYear with
    | .error e => .error e
    | .ok tgid =>
      match dlookup transitionsgroups tgid with
      | Option.none => .error .keyError
      | some g =>
        if g.length ≤ 2 then
          match stdDstAux periods bias g (Option.none, Option.none) with
          | .error e => .error e
          | .ok (st, dt) => .ok ⟨bias, st, dt⟩
        else .error .badGroupSize

/-- One catalog entry handed to `to_server_timezone`:
`(tz_id, tz_name, periods, transitions, transition groups)`. -/
structure ServerTZEntry where
  tz_id : String
  tz_name : String
  periods : List ((Int × String) × Period)
  transitions : List (String × Option Int)
  transitionsgroups : List (String × List Transition)
deriving DecidableEq, Repr

/-- The candidate-narrowing test of `to_server_timezone`: base biases equal,
and each of standard/daylight either absent on both sides or present on both
with equal bias. -/
def biasesMatch (cand loc : TimeZone) : Bool :=
  cand.bias == loc.bias &&
  (match cand.standard_time, loc.standard_time with
   | Option.none, Option.none => true
   | Option.none, some _ => false
   | some _, Option.none => false
   | some c, some l => c.bias == l.bias) &&
  (match cand.daylight_time, loc.daylight_time with
   | Option.none, Option.none => true
   | Option.none, some _ => false
   | some _, Option.none => false
   | some c, some l => c.bias == l.bias)

/-- `candidates.add(tz_id)`: set insertion, kept in first-encounter order. -/
def insertCand (cands : List String) (id : String) : List String :=
  if cands.contains id then cands else cands ++ [id]

/-- The loop of `TimeZone.to_server_timezone`: derive each entry's
`TimeZone`; an exact structural match returns its id immediately; otherwise
entries passing `biasesMatch` are collected; at the end, no candidate is
`NoMatchingTimezone` and otherwise one candidate is returned
(`candidates.pop()`, modelled as the first collected). -/
def tstAux (loc : TimeZone) (forYear : Int) :
    List ServerTZEntry → List String → Except TZError String
  | [], cands =>
      match cands with
      | [] => .error .noMatchingTimezone
      | c :: _ => .ok c
  | tz :: rest, cands =>
      match from_server_timezone tz.periods tz.transitions tz.transitionsgroups forYear with
      | .error e => .error e
      | .ok cand =>
          if cand = loc then .ok tz.tz_id
          else if biasesMatch cand loc then tstAux loc forYear rest (insertCand cands tz.tz_id)
          else tstAux loc forYear rest cands

/-- `TimeZone.to_server_timezone`. -/
def to_server_timezone (loc : TimeZone) (timezones : List ServerTZEntry) (forYear : Int) :
    Except TZError String :=
  tstAux loc forYear timezones []

/-! ## `TimeZoneTransition.clean` / `from_xml` (occurrence normalisation) -/

/-- A `StandardTime`/`DaylightTime` instance as stored before validation:
every field may still be absent (`None`). -/
structure TZTData where
  bias : Option Int
  time : Option Int
  occurrence : Option Int
  iso_month : Option Int
  weekday : Option Int
deriving DecidableEq, Repr

/-- Validation failures from field-level `clean`. -/
inductive CleanError where
  | missingRequiredField : CleanError
  | invalidChoice : CleanError
deriving DecidableEq, Repr

/-- Modelled from the spec: the field-level `clean` pass run by
`EWSElement.clean` over the transition descriptor's schema (the `Field`
classes live in `fields.py`, which is not under `src/`). Every field of
`StandardTime`/`DaylightTime` is required, so a missing value fails with
`MissingRequiredField`; the integer and time fields declare no min/max
bounds and pass through unchanged; the `weekday` enum (`WEEKDAY_NAMES`)
accepts 1..7, else `InvalidChoice`. -/
def tztSuperClean (t : TZTData) : Except CleanError TZTData :=
  match t.bias, t.time, t.occurrence, t.iso_month, t.weekday with
  | some b, some tm, some oc, some im, some wd =>
      if 1 ≤ wd ∧ wd ≤ 7 then .ok ⟨some b, some tm, some oc, some im, some wd⟩
      else .error .invalidChoice
  | _, _, _, _, _ => .error .missingRequiredField

/-- `TimeZoneTransition.clean`: run the inherited field validation, then
normalise an occurrence of `-1` to the sentinel `5`. -/
def tztClean (t : TZTData) : Except CleanError TZTData :=
  match tztSuperClean t with
  | .ok r => .ok (if r.occurrence = some (-1) then { r with occurrence := some 5 } else r)
  | .error e => .error e

/-- `TimeZoneTransition.from_xml`: construct the descriptor from the values
the fields extracted from the wire element (the XML extraction itself lives
in `fields.py`, outside `src/`), then normalise an occurrence of `-1` to the
sentinel `5`. -/
def tztFromXml (t : TZTData) : TZTData :=
  if t.occurrence = some (-1) then { t with occurrence := some 5 } else t

/-! ## Concrete schemas and instances used in the theorems -/

/-- `WEEKDAY_NAMES`, the 1-based enum of the `weekday` field. -/
def weekdayNames : List String :=
  ["Monday", "Tuesday", "Wednesday", "Thursday", "Friday", "Saturday", "Sunday"]

/-- The shared `TimeZoneTransition.FIELDS` schema (used by both
`StandardTime` and `DaylightTime`) in the generic entity model. -/
def tztFields : List Field :=
  [⟨"bias", false, false, []⟩, ⟨"time", false, false, []⟩,
   ⟨"occurrence", false, false, []⟩, ⟨"iso_month", false, false, []⟩,
   ⟨"weekday", false, true, weekdayNames⟩]

/-- A transition descriptor whose `weekday` is stored as the enum integer
`1`. -/
def entWeekdayInt : Entity :=
  ⟨"StandardTime", tztFields, [.int 0, .int 0, .int 1, .int 1, .int 1]⟩

/-- The same transition descriptor with `weekday` stored as the canonical
wire string `"Monday"` (the same enum value, normalized). -/
def entWeekdayStr : Entity :=
  ⟨"StandardTime", tztFields, [.int 0, .int 0, .int 1, .int 1, .str "Monday"]⟩

/-- The spec's example periods table: `{(2020, "Standard"): bias=120min}`
(the bias held as a 7200-second timedelta). -/
def c2Periods : List ((Int × String) × Period) := [((2020, "Standard"), ⟨"Standard", 7200⟩)]

/-! ## Helper lemmas -/

instance {ε α : Type} [DecidableEq ε] [DecidableEq α] : DecidableEq (Except ε α) := fun a b =>
  match a, b with
  | .ok x, .ok y =>
      if h : x = y then .isTrue (by rw [h]) else .isFalse (by simp [h])
  | .error x, .error y =>
      if h : x = y then .isTrue (by rw [h]) else .isFalse (by simp [h])
  | .ok _, .error _ => .isFalse (by simp)
  | .error _, .ok _ => .isFalse (by simp)

theorem lookupVal_eq_none {kwargs : List (String × Val)} {n : String}
    (h : n ∉ kwargs.map Prod.fst) : lookupVal kwargs n = .none := by
  induction kwargs with
  | nil => rfl
  | cons kv rest ih =>
      simp only [List.map_cons, List.mem_cons, not_or] at h
      have hne : (n == kv.1) = false := by simp [h.1]
      simp only [lookupVal, List.lookup, hne]
      exact ih h.2

theorem codeHashKey_set_listfield (schema : List Field) :
    ∀ (vals : List Val) (i : Nat) (f : Field), schema.get? i = some f → f.is_list = true →
    ((schema.zip (vals.set i Val.none)).map
        fun fv => if fv.1.is_list then foldListVal fv.2 else fv.2) =
    ((schema.zip (vals.set i (Val.vlist []))).map
        fun fv => if fv.1.is_list then foldListVal fv.2 else fv.2) := by
  induction schema with
  | nil => intro vals i f h _; simp at h
  | cons g schema ih =>
      intro vals i f hget hlist
      cases vals with
      | nil => simp
      | cons v vals =>
          cases i with
          | zero =>
              have hg : g = f := by simpa using hget
              subst hg
              simp [List.set, hlist, foldListVal]
          | succ i =>
              simp only [List.set, List.zip_cons_cons, List.map_cons]
              congr 1
              exact ih vals i f (by simpa using hget) hlist

/-! ## Claim theorems -/

/-- C4: For every StandardTime or DaylightTime transition descriptor, after
`clean` (local validation) and after `from_xml` (unmarshal from wire data)
the occurrence field is never `-1`: an occurrence of `-1` is normalized to
the sentinel `5`, an occurrence already equal to `5` is left unchanged, and
the two forms are equivalent (clean and from_xml send both to the same
result). -/
theorem C4_occurrence_normalization (t : TZTData) :
    ((tztFromXml t).occurrence ≠ some (-1)) ∧
    (∀ r, tztClean t = .ok r → r.occurrence ≠ some (-1)) ∧
    (tztFromXml { t with occurrence := some (-1) } = tztFromXml { t with occurrence := some 5 }) ∧
    (tztClean { t with occurrence := some (-1) } = tztClean { t with occurrence := some 5 }) ∧
    ((tztFromXml { t with occurrence := some (-1) }).occurrence = some 5) ∧
    (tztFromXml { t with occurrence := some 5 } = { t with occurrence := some 5 }) := by
  obtain ⟨b, tm, oc, im, wd⟩ := t
  refine ⟨?_, ?_, ?_, ?_, ?_, ?_⟩
  · by_cases h : oc = some (-1) <;> simp_all [tztFromXml]
  · intro r hr
    simp only [tztClean] at hr
    cases hs : tztSuperClean ⟨b, tm, oc, im, wd⟩ with
    | error e => rw [hs] at hr; exact absurd hr (by simp)
    | ok r0 =>
        rw [hs] at hr
        simp only [Except.ok.injEq] at hr
        subst hr
        by_cases h0 : r0.occurrence = some (-1) <;> simp_all
  · simp [tztFromXml]
  · simp only [tztClean, tztSuperClean]
    cases b <;> cases tm <;> cases im <;> cases wd <;> try rfl
    case some.some.some.some b' tm' im' wd' =>
      by_cases hw : 1 ≤ wd' ∧ wd' ≤ 7
      · simp [hw]
      · simp [hw]
  · simp [tztFromXml]
  · simp [tztFromXml]

/-- Witness for C4 at a concrete descriptor with occurrence `-1`. -/
theorem C4_occurrence_normalization_witness :
    tztClean ⟨some 0, some 0, some (-1), some 1, some 1⟩ =
      .ok ⟨some 0, some 0, some 5, some 1, some 1⟩ ∧
    (⟨some 0, some 0, some 5, some 1, some 1⟩ : TZTData).occurrence ≠ some (-1) :=
  ⟨by decide,
   (C4_occurrence_normalization ⟨some 0, some 0, some (-1), some 1, some 1⟩).2.1
     ⟨some 0, some 0, some 5, some 1, some 1⟩ (by decide)⟩

/-- C5: an identity-delegating entity constructed without `id` or
`changekey` keywords has no nested identity instance, so reading `id` and
`changekey` both return `None`; the first write to `id` lazily creates the
nested instance and sets only `id` on it, so `changekey` still reads `None`
until it is explicitly set (and vice versa the set value is then read
back). -/
theorem C5_lazy_identity (tag : String) (schema : List Field)
    (kwargs : List (String × Val)) (e : IdCkEntity)
    (hid : "id" ∉ kwargs.map Prod.fst) (hck : "changekey" ∉ kwargs.map Prod.fst)
    (h : idckInit tag schema kwargs = .ok e) :
    e.theId = Option.none ∧ idOf e = .none ∧ ckOf e = .none ∧
    (∀ v, idOf (setId e v) = v ∧ ckOf (setId e v) = .none ∧
      ∀ w, ckOf (setCk (setId e v) w) = w ∧ idOf (setCk (setId e v) w) = v) := by
  have hid' : lookupVal kwargs "id" = .none := lookupVal_eq_none hid
  have hck' : lookupVal kwargs "changekey" = .none := lookupVal_eq_none hck
  simp only [idckInit, hid', hck'] at h
  have htheId : e.theId = Option.none := by
    cases he : ewsInit tag schema
        (kwargs.filter fun kv => !(kv.1 == "id" || kv.1 == "changekey")) with
    | ok e0 =>
        rw [he] at h
        simp only [Except.ok.injEq] at h
        rw [← h]
        simp [pyTruthy]
    | error err => rw [he] at h; exact absurd h (by simp)
  refine ⟨htheId, ?_, ?_, ?_⟩
  · simp [idOf, htheId]
  · simp [ckOf, htheId]
  · intro v
    refine ⟨?_, ?_, ?_⟩
    · simp [setId, idOf, htheId]
    · simp [setId, ckOf, htheId]
    · intro w
      constructor
      · simp [setId, setCk, ckOf, htheId]
      · simp [setId, setCk, idOf, htheId]

/-- Witness for C5: construct a concrete entity with no identity keywords
and exercise the lazy setters. -/
theorem C5_lazy_identity_witness :
    idOf ⟨"Item", [], [], Option.none⟩ = .none ∧
    ckOf (setId ⟨"Item", [], [], Option.none⟩ (.str "X")) = .none :=
  ⟨(C5_lazy_identity "Item" [] [] ⟨"Item", [], [], Option.none⟩ (by simp) (by simp)
      (by decide)).2.1,
   ((C5_lazy_identity "Item" [] [] ⟨"Item", [], [], Option.none⟩ (by simp) (by simp)
      (by decide)).2.2.2 (.str "X")).2.1⟩

/-- C6: for identity-delegating entities, when the first entity's `id` is
truthy (non-empty), equal `(id, changekey)` pairs make the entities equal
regardless of every other field value; when neither entity has a truthy
`id`, hashing and equality fall back to the full structural hash over all
fields — the `_id` slot together with the remaining field values folded as
`EWSElement.__hash__` folds them, so in particular two id-less entities
differing only by an absent versus an empty list field are equal. -/
theorem C6_identity_hash (a b : IdCkEntity) :
    (pyTruthy (idOf a) = true → idOf a = idOf b → ckOf a = ckOf b →
      idckEq a b = true) ∧
    (pyTruthy (idOf a) = false → pyTruthy (idOf b) = false →
      (idckEq a b = true ↔
        (a.theId = b.theId ∧
         codeHashKey ⟨a.tag, a.schema, a.vals⟩ = codeHashKey ⟨b.tag, b.schema, b.vals⟩))) ∧
    (∀ (i : Nat) (f : Field), pyTruthy (idOf a) = false →
      a.schema.get? i = some f → f.is_list = true →
      idckEq { a with vals := a.vals.set i Val.none }
             { a with vals := a.vals.set i (Val.vlist []) } = true) := by
  refine ⟨?_, ?_, ?_⟩
  · intro ht hi hc
    have htb : pyTruthy (idOf b) = true := hi ▸ ht
    simp [idckEq, idckHashKey, ht, htb, hi, hc]
  · intro ha hb
    simp [idckEq, idckHashKey, ha, hb, IdHKey.structural.injEq]
  · intro i f hfalse hget hlist
    have hkey := codeHashKey_set_listfield a.schema a.vals i f hget hlist
    have hid1 : idOf { a with vals := a.vals.set i Val.none } = idOf a := rfl
    have hid2 : idOf { a with vals := a.vals.set i (Val.vlist []) } = idOf a := rfl
    simp only [idckEq, idckHashKey, hid1, hid2, hfalse]
    simp only [Bool.false_eq_true, if_false, codeHashKey]
    simp [hkey]

/-- Witness for C6: two concrete entities sharing an id but nothing else are
equal; two id-less entities differing only by a `None` versus empty list
field are equal, via the structural fallback. -/
theorem C6_identity_hash_witness :
    idckEq ⟨"A", [], [.int 1], some ⟨.str "X", .str "K"⟩⟩
           ⟨"A", [], [.int 2], some ⟨.str "X", .str "K"⟩⟩ = true ∧
    idckEq ⟨"A", [⟨"l", true, false, []⟩], [Val.none], Option.none⟩
           ⟨"A", [⟨"l", true, false, []⟩], [Val.vlist []], Option.none⟩ = true ∧
    idckEq ⟨"A", [⟨"l", true, false, []⟩], [Val.none].set 0 Val.none, Option.none⟩
           ⟨"A", [⟨"l", true, false, []⟩], [Val.none].set 0 (Val.vlist []), Option.none⟩ =
      true := by
  refine ⟨?_, ?_, ?_⟩
  · exact (C6_identity_hash ⟨"A", [], [.int 1], some ⟨.str "X", .str "K"⟩⟩
      ⟨"A", [], [.int 2], some ⟨.str "X", .str "K"⟩⟩).1 (by decide) (by decide) (by decide)
  · exact ((C6_identity_hash ⟨"A", [⟨"l", true, false, []⟩], [Val.none], Option.none⟩
      ⟨"A", [⟨"l", true, false, []⟩], [Val.vlist []], Option.none⟩).2.1 (by decide)
      (by decide)).mpr ⟨rfl, by decide⟩
  · exact (C6_identity_hash ⟨"A", [⟨"l", true, false, []⟩], [Val.none], Option.none⟩
      ⟨"A", [⟨"l", true, false, []⟩], [Val.none], Option.none⟩).2.2 0
      ⟨"l", true, false, []⟩ (by decide) (by decide) rfl

theorem contains_iff_mem {l : List String} {a : String} : l.contains a = true ↔ a ∈ l := by
  simp [List.contains]

theorem lookup_name_map (h : String → Val) (l : List Field) (n : String)
    (hn : n ∈ l.map Field.name) :
    (l.map fun g => (g.name, h g.name)).lookup n = some (h n) := by
  induction l with
  | nil => simp at hn
  | cons g l ih =>
      simp only [List.map_cons, List.lookup]
      by_cases hg : n = g.name
      · subst hg
        simp
      · have hg' : (n == g.name) = false := by simp [hg]
        rw [hg']
        simp only [List.map_cons, List.mem_cons] at hn
        exact ih (hn.resolve_left hg)

theorem filter_names_nil_iff (schema : List Field) (kwargs : List (String × Val)) :
    ((kwargs.filter fun kv => !(schema.map Field.name).contains kv.1) = []) ↔
      ∀ k ∈ kwargs.map Prod.fst, k ∈ schema.map Field.name := by
  rw [List.filter_eq_nil_iff]
  constructor
  · intro h k hk
    rcases List.mem_map.mp hk with ⟨kv, hkv, rfl⟩
    have hcv := h kv hkv
    have hcc : (schema.map Field.name).contains kv.1 = true := by
      revert hcv
      cases (schema.map Field.name).contains kv.1 <;> simp
    exact contains_iff_mem.mp hcc
  · intro h kv hkv
    simpa using h kv.1 (List.mem_map_of_mem _ hkv)

theorem ewsInit_ok_iff (tag : String) (schema : List Field) (kwargs : List (String × Val)) :
    (∃ e, ewsInit tag schema kwargs = .ok e) ↔
      ∀ k ∈ kwargs.map Prod.fst, k ∈ schema.map Field.name := by
  constructor
  · rintro ⟨e, he⟩
    simp only [ewsInit] at he
    by_cases hemp : (kwargs.filter fun kv => !(schema.map Field.name).contains kv.1).isEmpty
    · rw [← filter_names_nil_iff schema kwargs, ← List.isEmpty_iff]
      exact hemp
    · rw [if_neg hemp] at he
      exact absurd he (by simp)
  · intro h
    refine ⟨⟨tag, schema, schema.map fun f => lookupVal kwargs f.name⟩, ?_⟩
    simp only [ewsInit]
    rw [if_pos]
    rw [List.isEmpty_iff, filter_names_nil_iff schema kwargs]
    exact h

/-- C7: for every entity type and keyword set, construction succeeds exactly
when every keyword names a declared field of the schema — or, for
identity-delegating entities, one of the allowed non-field attributes `id`
and `changekey`; any unrecognized keyword makes construction fail with an
`UnexpectedAttribute` error whose name list holds exactly the offending
names; and every declared field not given a value defaults to `None`. -/
theorem C7_strict_construction (tag : String) (schema : List Field)
    (kwargs : List (String × Val)) :
    ((∀ k ∈ kwargs.map Prod.fst, k ∈ schema.map Field.name) ↔
      ∃ e, ewsInit tag schema kwargs = .ok e) ∧
    (∀ ns, ewsInit tag schema kwargs = .error (.unexpectedAttribute ns) →
      ∀ n, n ∈ ns ↔ (n ∈ kwargs.map Prod.fst ∧ n ∉ schema.map Field.name)) ∧
    (∀ e f, ewsInit tag schema kwargs = .ok e → f ∈ schema →
      f.name ∉ kwargs.map Prod.fst → e.getattr f.name = some Val.none) ∧
    ((∀ k ∈ kwargs.map Prod.fst, k ∈ schema.map Field.name ∨ k = "id" ∨ k = "changekey") ↔
      ∃ e, idckInit tag schema kwargs = .ok e) := by
  refine ⟨(ewsInit_ok_iff tag schema kwargs).symm, ?_, ?_, ?_⟩
  · intro ns hns n
    simp only [ewsInit] at hns
    by_cases hemp : (kwargs.filter fun kv => !(schema.map Field.name).contains kv.1).isEmpty
    · rw [if_pos hemp] at hns
      exact absurd hns (by simp)
    · rw [if_neg hemp] at hns
      simp only [Except.error.injEq, InitError.unexpectedAttribute.injEq] at hns
      subst hns
      constructor
      · intro hn
        rcases List.mem_map.mp hn with ⟨kv, hkv, rfl⟩
        rcases List.mem_filter.mp hkv with ⟨hkw, hp⟩
        simp only [Bool.not_eq_true', Bool.not_eq_true] at hp
        refine ⟨List.mem_map_of_mem _ hkw, fun hmem => ?_⟩
        rw [contains_iff_mem.mpr hmem] at hp
        · simp at hp
      · rintro ⟨hmem, hnotf⟩
        rcases List.mem_map.mp hmem with ⟨kv, hkv, rfl⟩
        refine List.mem_map_of_mem _ (List.mem_filter.mpr ⟨hkv, ?_⟩)
        simp only [Bool.not_eq_true']
        by_contra hcon
        simp only [Bool.not_eq_false] at hcon
        exact hnotf (contains_iff_mem.mp hcon)
  · intro e f he hf hnk
    simp only [ewsInit] at he
    by_cases hemp : (kwargs.filter fun kv => !(schema.map Field.name).contains kv.1).isEmpty
    · rw [if_pos hemp] at he
      simp only [Except.ok.injEq] at he
      subst he
      simp only [Entity.getattr]
      rw [List.zip_map']
      rw [lookup_name_map (fun n => lookupVal kwargs n) schema f.name
        (List.mem_map_of_mem _ hf)]
      rw [lookupVal_eq_none hnk]
    · rw [if_neg hemp] at he
      exact absurd he (by simp)
  · have hres : (∃ e, idckInit tag schema kwargs = .ok e) ↔
        (∃ e0, ewsInit tag schema
          (kwargs.filter fun kv => !(kv.1 == "id" || kv.1 == "changekey")) = .ok e0) := by
      cases he : ewsInit tag schema
          (kwargs.filter fun kv => !(kv.1 == "id" || kv.1 == "changekey")) with
      | ok e0 => simp only [Bool.not_or] at he; simp [idckInit, he]
      | error err => simp only [Bool.not_or] at he; simp [idckInit, he]
    rw [hres, ewsInit_ok_iff]
    constructor
    · intro h k hk
      rcases List.mem_map.mp hk with ⟨kv, hkv, rfl⟩
      rcases List.mem_filter.mp hkv with ⟨hkw, hp⟩
      simp only [Bool.not_eq_true', Bool.or_eq_false_iff, beq_eq_false_iff_ne, ne_eq] at hp
      rcases h kv.1 (List.mem_map_of_mem _ hkw) with hn | hid | hck
      · exact hn
      · exact absurd hid hp.1
      · exact absurd hck hp.2
    · intro h k hk
      rcases List.mem_map.mp hk with ⟨kv, hkv, rfl⟩
      by_cases hid : kv.1 = "id"
      · exact Or.inr (Or.inl hid)
      · by_cases hck : kv.1 = "changekey"
        · exact Or.inr (Or.inr hck)
        · refine Or.inl (h kv.1 (List.mem_map_of_mem _ (List.mem_filter.mpr ⟨hkv, ?_⟩)))
          simp [hid, hck]

/-- Witness for C7 at a one-field schema: valid keywords construct, an
unknown keyword is reported exactly, an unset field reads `None`, and an
identity-delegating entity accepts the `id` keyword. -/
theorem C7_strict_construction_witness :
    (∃ e, ewsInit "E" [⟨"a", false, false, []⟩] [("a", Val.int 1)] = .ok e) ∧
    ("b" ∈ (["b"] : List String) ↔
      ("b" ∈ ([("b", Val.int 1)] : List (String × Val)).map Prod.fst ∧
       "b" ∉ ([⟨"a", false, false, []⟩] : List Field).map Field.name)) ∧
    Entity.getattr ⟨"E", [⟨"a", false, false, []⟩], [Val.none]⟩ "a" = some Val.none ∧
    (∃ e, idckInit "E" [⟨"a", false, false, []⟩]
      [("id", Val.str "X"), ("a", Val.int 1)] = .ok e) := by
  refine ⟨?_, ?_, ?_, ?_⟩
  · exact (C7_strict_construction "E" [⟨"a", false, false, []⟩] [("a", Val.int 1)]).1.mp
      (by decide)
  · exact (C7_strict_construction "E" [⟨"a", false, false, []⟩] [("b", Val.int 1)]).2.1
      ["b"] (by decide) "b"
  · exact (C7_strict_construction "E" [⟨"a", false, false, []⟩] []).2.2.1
      ⟨"E", [⟨"a", false, false, []⟩], [Val.none]⟩ ⟨"a", false, false, []⟩
      (by decide) (by simp) (by simp)
  · exact (C7_strict_construction "E" [⟨"a", false, false, []⟩]
      [("id", Val.str "X"), ("a", Val.int 1)]).2.2.2.mp (by decide)

theorem firstDupName_eq_none_iff (fs : List Field) (seen : List String) :
    firstDupName fs seen = Option.none ↔
      ((fs.map Field.name).Nodup ∧ ∀ n ∈ fs.map Field.name, n ∉ seen) := by
  induction fs generalizing seen with
  | nil => simp [firstDupName]
  | cons f fs ih =>
      simp only [firstDupName, List.map_cons]
      by_cases hc : seen.contains f.name = true
      · rw [if_pos hc]
        have hmem : f.name ∈ seen := contains_iff_mem.mp hc
        constructor
        · intro h
          exact absurd h (by simp)
        · rintro ⟨-, hall⟩
          exact absurd hmem (hall f.name (List.mem_cons_self _ _))
      · rw [if_neg hc]
        rw [ih]
        have hfn : f.name ∉ seen := fun hm => hc (contains_iff_mem.mpr hm)
        constructor
        · rintro ⟨hnd, hall⟩
          refine ⟨List.nodup_cons.mpr ⟨fun hm => ?_, hnd⟩, fun n hn => ?_⟩
          · exact (hall _ hm) (List.mem_cons_self _ _)
          · rcases List.mem_cons.mp hn with h | h
            · subst h; exact hfn
            · exact fun hs => (hall n h) (List.mem_cons_of_mem _ hs)
        · rintro ⟨hnd, hall⟩
          rw [List.nodup_cons] at hnd
          refine ⟨hnd.2, fun n hn hs => ?_⟩
          rcases List.mem_cons.mp hs with h | h
          · subst h; exact hnd.1 hn
          · exact (hall n (List.mem_cons_of_mem _ hn)) h

theorem mkFields_ok_of_nodup {fs : List Field} (h : (fs.map Field.name).Nodup) :
    mkFields fs = .ok ⟨fs⟩ := by
  have := (firstDupName_eq_none_iff fs []).mpr ⟨h, by simp⟩
  simp [mkFields, this]

/-- C8: a `Fields` container built from a sequence with two same-named
fields, or an insertion of an already-present name, fails with the
`DuplicateField` error; successful construction and insertion keep field
names unique. -/
theorem C8_duplicate_names (fs : List Field) (c : FieldsC) (idx : Nat) (f : Field) :
    ((∃ n, mkFields fs = .error (.duplicateField n)) ↔ ¬ (fs.map Field.name).Nodup) ∧
    (mkFields fs = .ok c → c.fields = fs ∧ (c.fields.map Field.name).Nodup) ∧
    (mkFields fs = .ok c → f.name ∈ c.fields.map Field.name →
      c.insertAt idx f = .error (.duplicateField f.name)) ∧
    (mkFields fs = .ok c → f.name ∉ c.fields.map Field.name →
      ∃ c', c.insertAt idx f = .ok c' ∧ (c'.fields.map Field.name).Nodup ∧
        c'.fields = c.fields.take idx ++ f :: c.fields.drop idx) := by
  have hok : mkFields fs = .ok c → c.fields = fs ∧ (c.fields.map Field.name).Nodup := by
    intro h
    simp only [mkFields] at h
    cases hd : firstDupName fs [] with
    | some n => rw [hd] at h; exact absurd h (by simp)
    | none =>
        rw [hd] at h
        simp only [Except.ok.injEq] at h
        have hnd := ((firstDupName_eq_none_iff fs []).mp hd).1
        subst h
        exact ⟨rfl, hnd⟩
  refine ⟨?_, hok, ?_, ?_⟩
  · constructor
    · rintro ⟨n, hn⟩ hnd
      rw [mkFields] at hn
      rw [(firstDupName_eq_none_iff fs []).mpr ⟨hnd, by simp⟩] at hn
      exact absurd hn (by simp)
    · intro hnd
      cases hd : firstDupName fs [] with
      | some n => exact ⟨n, by simp [mkFields, hd]⟩
      | none => exact absurd ((firstDupName_eq_none_iff fs []).mp hd).1 hnd
  · intro hc hmem
    simp only [FieldsC.insertAt]
    rw [if_pos (contains_iff_mem.mpr hmem)]
  · intro hc hmem
    have hnd := (hok hc).2
    refine ⟨⟨c.fields.take idx ++ f :: c.fields.drop idx⟩, ?_, ?_, rfl⟩
    · simp only [FieldsC.insertAt]
      rw [if_neg]
      intro hcon
      exact hmem (contains_iff_mem.mp hcon)
    · have hperm : (c.fields.take idx ++ f :: c.fields.drop idx).Perm (f :: c.fields) := by
        have h1 : (c.fields.take idx ++ f :: c.fields.drop idx).Perm
            (f :: (c.fields.take idx ++ c.fields.drop idx)) := List.perm_middle
        rwa [List.take_append_drop] at h1
      show ((c.fields.take idx ++ f :: c.fields.drop idx).map Field.name).Nodup
      exact ((hperm.map Field.name).nodup_iff).mpr (List.nodup_cons.mpr ⟨hmem, hnd⟩)

/-- Witness for C8: a duplicate pair fails, a clean pair constructs, a
duplicate insertion fails and a fresh insertion succeeds. -/
theorem C8_duplicate_names_witness :
    (∃ n, mkFields [⟨"a", false, false, []⟩, ⟨"a", true, false, []⟩] =
      .error (.duplicateField n)) ∧
    FieldsC.insertAt ⟨[⟨"a", false, false, []⟩]⟩ 1 ⟨"a", true, false, []⟩ =
      .error (.duplicateField "a") ∧
    (∃ c', FieldsC.insertAt ⟨[⟨"a", false, false, []⟩]⟩ 1 ⟨"b", false, false, []⟩ = .ok c' ∧
      (c'.fields.map Field.name).Nodup ∧
      c'.fields = [⟨"a", false, false, []⟩, ⟨"b", false, false, []⟩]) := by
  refine ⟨?_, ?_, ?_⟩
  · exact (C8_duplicate_names [⟨"a", false, false, []⟩, ⟨"a", true, false, []⟩]
      ⟨[]⟩ 0 ⟨"a", false, false, []⟩).1.mpr (by decide)
  · exact (C8_duplicate_names [⟨"a", false, false, []⟩] ⟨[⟨"a", false, false, []⟩]⟩ 1
      ⟨"a", true, false, []⟩).2.2.1 (by decide) (by decide)
  · have h := (C8_duplicate_names [⟨"a", false, false, []⟩] ⟨[⟨"a", false, false, []⟩]⟩ 1
      ⟨"b", false, false, []⟩).2.2.2 (by decide) (by decide)
    rcases h with ⟨c', h1, h2, h3⟩
    exact ⟨c', h1, h2, by rw [h3]; rfl⟩

/-- C9: `copy()`, concatenation and slicing of a `Fields` container return a
value of the container kind whose fields appear in exactly the declaration
order of the source container(s) (concatenation requires the two containers
not to share a field name, or it raises `DuplicateField`). -/
theorem C9_order_preservation (c d : FieldsC) (a b : Nat)
    (hc : (c.fields.map Field.name).Nodup) :
    (c.copy = .ok ⟨c.fields⟩) ∧
    ((d.fields.map Field.name).Nodup →
      (∀ n ∈ c.fields.map Field.name, n ∉ d.fields.map Field.name) →
      c.add d = .ok ⟨c.fields ++ d.fields⟩) ∧
    (c.slice a b = .ok ⟨(c.fields.drop a).take (b - a)⟩) := by
  refine ⟨?_, ?_, ?_⟩
  · exact mkFields_ok_of_nodup hc
  · intro hd hdisj
    have : ((c.fields ++ d.fields).map Field.name).Nodup := by
      rw [List.map_append, List.nodup_append]
      exact ⟨hc, hd, fun n hn => hdisj n hn⟩
    exact mkFields_ok_of_nodup this
  · have hsub : ((c.fields.drop a).take (b - a)).Sublist c.fields :=
      (List.take_sublist _ _).trans (List.drop_sublist _ _)
    exact mkFields_ok_of_nodup (hc.sublist (hsub.map Field.name))

/-- Witness for C9 on a concrete two-field container and a disjoint
one-field container. -/
theorem C9_order_preservation_witness :
    FieldsC.copy ⟨[⟨"a", false, false, []⟩, ⟨"b", false, false, []⟩]⟩ =
      .ok ⟨[⟨"a", false, false, []⟩, ⟨"b", false, false, []⟩]⟩ ∧
    FieldsC.add ⟨[⟨"a", false, false, []⟩, ⟨"b", false, false, []⟩]⟩ ⟨[⟨"c", false, false, []⟩]⟩ =
      .ok ⟨[⟨"a", false, false, []⟩, ⟨"b", false, false, []⟩, ⟨"c", false, false, []⟩]⟩ ∧
    FieldsC.slice ⟨[⟨"a", false, false, []⟩, ⟨"b", false, false, []⟩]⟩ 1 2 =
      .ok ⟨[⟨"b", false, false, []⟩]⟩ := by
  have h := C9_order_preservation ⟨[⟨"a", false, false, []⟩, ⟨"b", false, false, []⟩]⟩
    ⟨[⟨"c", false, false, []⟩]⟩ 1 2 (by decide)
  exact ⟨h.1, h.2.1 (by decide) (by decide), h.2.2⟩

/-- C10: `EWSElement.__eq__` compares only the hashes of the folded
field-value tuples, with no type check: any two entities with equal hash
keys compare equal, two instances of different entity types sharing a schema
and storing the same values compare equal, and in particular a
`StandardTime` and a `DaylightTime` with identical bias, time, occurrence,
iso_month and weekday are equal to each other. -/
theorem C10_no_type_check :
    (∀ a b : Entity, codeEq a b = true ↔ codeHashKey a = codeHashKey b) ∧
    (∀ (t1 t2 : String) (schema : List Field) (vals : List Val),
      codeEq ⟨t1, schema, vals⟩ ⟨t2, schema, vals⟩ = true) ∧
    (codeEq ⟨"StandardTime", tztFields, [.int 120, .int 0, .int 5, .int 10, .int 7]⟩
            ⟨"DaylightTime", tztFields, [.int 120, .int 0, .int 5, .int 10, .int 7]⟩ = true) := by
  refine ⟨?_, ?_, ?_⟩
  · intro a b
    simp [codeEq]
  · intro t1 t2 schema vals
    simp [codeEq, codeHashKey]
  · decide

/-- C1 (amended): two entities are equal iff their structural hashes match,
where the hash is computed over the ordered tuple of raw field values in
schema declaration order — without field names and without enum
normalisation — with a list-valued field's value folded to a tuple so that
an absent (`None`) list and an empty list hash identically; two entities
built from the same values are equal and have equal hashes. -/
theorem C1_structural_hash (a b : Entity) (i : Nat) (f : Field) :
    (codeEq a b = true ↔ codeHashKey a = codeHashKey b) ∧
    (a.schema = b.schema → a.vals = b.vals → codeEq a b = true) ∧
    (a.schema.get? i = some f → f.is_list = true →
      codeHashKey { a with vals := a.vals.set i Val.none } =
      codeHashKey { a with vals := a.vals.set i (Val.vlist []) }) := by
  refine ⟨?_, ?_, ?_⟩
  · simp [codeEq]
  · intro hs hv
    simp [codeEq, codeHashKey, hs, hv]
  · intro hget hlist
    exact codeHashKey_set_listfield a.schema a.vals i f hget hlist

/-- Witness for C1: two entities of different classes with the same list
field, one holding `None` and one holding `[]`, have equal hash keys; two
entities built from the same values are equal. -/
theorem C1_structural_hash_witness :
    codeEq ⟨"A", [⟨"l", true, false, []⟩], [Val.none]⟩
           ⟨"B", [⟨"l", true, false, []⟩], [Val.none]⟩ = true ∧
    codeHashKey ⟨"A", [⟨"l", true, false, []⟩], [Val.none].set 0 Val.none⟩ =
      codeHashKey ⟨"A", [⟨"l", true, false, []⟩], [Val.none].set 0 (Val.vlist [])⟩ :=
  ⟨(C1_structural_hash ⟨"A", [⟨"l", true, false, []⟩], [Val.none]⟩
      ⟨"B", [⟨"l", true, false, []⟩], [Val.none]⟩ 0 ⟨"l", true, false, []⟩).2.1 rfl rfl,
   (C1_structural_hash ⟨"A", [⟨"l", true, false, []⟩], [Val.none]⟩
      ⟨"B", [⟨"l", true, false, []⟩], [Val.none]⟩ 0 ⟨"l", true, false, []⟩).2.2
      (by decide) rfl⟩

/-- Counterexample to C1 as stated: under the claimed hash — the ordered
tuple of (field name, normalized value) pairs with enum values normalized to
their canonical wire string — a descriptor with `weekday = 1` and one with
`weekday = "Monday"` hash identically and would be equal; the code's hash
distinguishes them and `__eq__` returns `False`. -/
theorem C1_structural_hash_counterexample :
    specHashKey entWeekdayInt = specHashKey entWeekdayStr ∧
    codeHashKey entWeekdayInt ≠ codeHashKey entWeekdayStr ∧
    codeEq entWeekdayInt entWeekdayStr = false := by decide

/-- C2 (amended): an empty transitions table makes `from_server_timezone`
fail with the no-valid-transition error (so the spec's example input raises
rather than returning a `TimeZone`); a selected transition group with zero
transitions yields a `TimeZone` carrying the base bias and no
StandardTime/DaylightTime descriptors; the dummy zero-bias descriptors are
synthesized when the selected group consists of a simple transition — a
record holding only its `to` key. -/
theorem C2_dummy_transitions (periods : List ((Int × String) × Period))
    (transitions : List (String × Option Int))
    (tgroups : List (String × List Transition)) (y b : Int) (tg : String) :
    (getValidTransitionId [] y = .error .noValidTransition) ∧
    (getBias periods y = .ok b → getValidTransitionId transitions y = .ok tg →
      dlookup tgroups tg = some [] →
      from_server_timezone periods transitions tgroups y =
        .ok ⟨b, Option.none, Option.none⟩) ∧
    (∀ tk p, getBias periods y = .ok b → getValidTransitionId transitions y = .ok tg →
      dlookup tgroups tg = some [Transition.simple tk] → dlookup periods tk = some p →
      from_server_timezone periods transitions tgroups y =
        .ok ⟨b, some dummyStandard, some dummyDaylight⟩) := by
  refine ⟨rfl, ?_, ?_⟩
  · intro hb ht hg
    simp [from_server_timezone, hb, ht, hg, stdDstAux]
  · intro tk p hb ht hg hp
    simp [from_server_timezone, hb, ht, hg, stdDstAux, Transition.toKey', hp]

/-- Witness for C2 (amended) on the spec's example periods: a zero-transition
group yields bias 120 with no descriptors; a simple transition yields the
dummy descriptors. -/
theorem C2_dummy_transitions_witness :
    from_server_timezone c2Periods [("0", Option.none)] [("0", [])] 2020 =
      .ok ⟨120, Option.none, Option.none⟩ ∧
    from_server_timezone c2Periods [("0", Option.none)]
        [("0", [Transition.simple (2020, "Standard")])] 2020 =
      .ok ⟨120, some dummyStandard, some dummyDaylight⟩ :=
  ⟨(C2_dummy_transitions c2Periods [("0", Option.none)] [("0", [])] 2020 120 "0").2.1
      (by decide) (by decide) (by decide),
   (C2_dummy_transitions c2Periods [("0", Option.none)]
        [("0", [Transition.simple (2020, "Standard")])] 2020 120 "0").2.2
      (2020, "Standard") ⟨"Standard", 7200⟩ (by decide) (by decide) (by decide) (by decide)⟩

/-- Counterexample to C2 as stated: on the spec's own example — periods
`{(2020, "Standard"): bias=120min}`, an empty transitions table,
`for_year = 2020` — `from_server_timezone` raises the no-valid-transition
error instead of returning a `TimeZone` with bias 120 and dummy descriptors;
and on a selected transition group that contains zero transitions the result
carries no descriptors at all. -/
theorem C2_dummy_transitions_counterexample :
    from_server_timezone c2Periods [] [] 2020 = .error .noValidTransition ∧
    from_server_timezone c2Periods [("0", Option.none)] [("0", [])] 2020 =
      .ok ⟨120, Option.none, Option.none⟩ ∧
    (⟨120, Option.none, Option.none⟩ : TimeZone).standard_time ≠ some dummyStandard := by
  decide

/-- Derivation of one catalog entry's `TimeZone`, as the search loop performs
it. -/
def deriveEntry (y : Int) (e : ServerTZEntry) : Except TZError TimeZone :=
  from_server_timezone e.periods e.transitions e.transitionsgroups y

theorem tstAux_skip (loc : TimeZone) (y : Int) (pre rest : List ServerTZEntry)
    (h : ∀ e ∈ pre, ∃ c, deriveEntry y e = .ok c ∧ c ≠ loc) :
    ∀ cands, ∃ cands', tstAux loc y (pre ++ rest) cands = tstAux loc y rest cands' := by
  induction pre with
  | nil => intro cands; exact ⟨cands, rfl⟩
  | cons e pre ih =>
      intro cands
      obtain ⟨c, hc, hne⟩ := h e (List.mem_cons_self _ _)
      have hc' : from_server_timezone e.periods e.transitions e.transitionsgroups y = .ok c := hc
      have hrec := ih fun e' he' => h e' (List.mem_cons_of_mem _ he')
      simp only [List.cons_append, tstAux, hc']
      rw [if_neg hne]
      by_cases hb : biasesMatch c loc = true
      · rw [if_pos hb]; exact hrec _
      · rw [if_neg hb]; exact hrec _

theorem tstAux_noqual (loc : TimeZone) (y : Int) (pre rest : List ServerTZEntry)
    (h : ∀ e ∈ pre, ∃ c, deriveEntry y e = .ok c ∧ c ≠ loc ∧ biasesMatch c loc = false) :
    ∀ cands, tstAux loc y (pre ++ rest) cands = tstAux loc y rest cands := by
  induction pre with
  | nil => intro cands; rfl
  | cons e pre ih =>
      intro cands
      obtain ⟨c, hc, hne, hb⟩ := h e (List.mem_cons_self _ _)
      have hc' : from_server_timezone e.periods e.transitions e.transitionsgroups y = .ok c := hc
      simp only [List.cons_append, tstAux, hc']
      rw [if_neg hne, if_neg (by simp [hb])]
      exact ih (fun e' he' => h e' (List.mem_cons_of_mem _ he')) cands

/-- C3: `to_server_timezone` returns the id of a catalog entry whose derived
`TimeZone` is structurally equal to the local one as soon as such an entry
is encountered; otherwise it collects entries whose base bias matches and
whose StandardTime and DaylightTime are each either both absent or both
present with equal bias, fails with `NoMatchingTimezone` when no entry
qualifies, and returns the single qualifying entry's id when exactly one
qualifies. -/
theorem C3_catalog_matching (loc : TimeZone) (y : Int) :
    (∀ (pre : List ServerTZEntry) (e : ServerTZEntry) (rest : List ServerTZEntry),
      (∀ e' ∈ pre, ∃ c, deriveEntry y e' = .ok c ∧ c ≠ loc) →
      deriveEntry y e = .ok loc →
      to_server_timezone loc (pre ++ e :: rest) y = .ok e.tz_id) ∧
    (∀ tzs : List ServerTZEntry,
      (∀ e ∈ tzs, ∃ c, deriveEntry y e = .ok c ∧ c ≠ loc ∧ biasesMatch c loc = false) →
      to_server_timezone loc tzs y = .error .noMatchingTimezone) ∧
    (∀ (pre : List ServerTZEntry) (q : ServerTZEntry) (post : List ServerTZEntry),
      (∀ e ∈ pre, ∃ c, deriveEntry y e = .ok c ∧ c ≠ loc ∧ biasesMatch c loc = false) →
      (∀ e ∈ post, ∃ c, deriveEntry y e = .ok c ∧ c ≠ loc ∧ biasesMatch c loc = false) →
      (∃ c, deriveEntry y q = .ok c ∧ c ≠ loc ∧ biasesMatch c loc = true) →
      to_server_timezone loc (pre ++ q :: post) y = .ok q.tz_id) := by
  refine ⟨?_, ?_, ?_⟩
  · intro pre e rest hpre he
    have he' : from_server_timezone e.periods e.transitions e.transitionsgroups y = .ok loc := he
    obtain ⟨cands', hrw⟩ := tstAux_skip loc y pre (e :: rest) hpre []
    rw [to_server_timezone, hrw]
    simp [tstAux, he']
  · intro tzs h
    have hall := tstAux_noqual loc y tzs [] h []
    rw [List.append_nil] at hall
    rw [to_server_timezone, hall]
    rfl
  · intro pre q post hpre hpost hq
    obtain ⟨c, hc, hne, hb⟩ := hq
    have hc' : from_server_timezone q.periods q.transitions q.transitionsgroups y = .ok c := hc
    rw [to_server_timezone, tstAux_noqual loc y pre (q :: post) hpre []]
    simp only [tstAux, hc']
    rw [if_neg hne, if_pos hb]
    have hone : insertCand [] q.tz_id = [q.tz_id] := rfl
    have h2 := tstAux_noqual loc y post [] hpost [q.tz_id]
    rw [List.append_nil] at h2
    rw [hone, h2]
    rfl

/-- Catalog entry used in the C3 witness: derives to `TimeZone(bias=60)` with
no transition descriptors. -/
def entryA : ServerTZEntry :=
  ⟨"A", "Zone A", [((2000, "Standard"), ⟨"Standard", 3600⟩)], [("0", Option.none)], [("0", [])]⟩

/-- Catalog entry used in the C3 witness: derives to `TimeZone(bias=0)`. -/
def entryB : ServerTZEntry :=
  ⟨"B", "Zone B", [((2000, "Standard"), ⟨"Standard", 0⟩)], [("0", Option.none)], [("0", [])]⟩

/-- Catalog entry used in the C3 witness: derives to `TimeZone(bias=60)`
with the dummy standard/daylight descriptors. -/
def entryC : ServerTZEntry :=
  ⟨"C", "Zone C", [((2000, "Standard"), ⟨"Standard", 3600⟩)], [("0", Option.none)],
   [("0", [Transition.simple (2000, "Standard")])]⟩

/-- Witness for C3: an exact match returns its id, a bias-mismatched catalog
fails with `NoMatchingTimezone`, and a single bias-qualifying entry's id is
returned. -/
theorem C3_catalog_matching_witness :
    to_server_timezone ⟨60, Option.none, Option.none⟩ [entryA] 2020 = .ok "A" ∧
    to_server_timezone ⟨60, Option.none, Option.none⟩ [entryB] 2020 =
      .error .noMatchingTimezone ∧
    to_server_timezone ⟨60, some ⟨0, 7, 2, 3, 4⟩, some ⟨0, 7, 2, 3, 4⟩⟩ [entryC] 2020 =
      .ok "C" := by
  refine ⟨?_, ?_, ?_⟩
  · exact (C3_catalog_matching ⟨60, Option.none, Option.none⟩ 2020).1 [] entryA []
      (by simp) (by decide)
  · refine (C3_catalog_matching ⟨60, Option.none, Option.none⟩ 2020).2.1 [entryB] ?_
    intro e he
    rw [List.mem_singleton] at he
    subst he
    exact ⟨⟨0, Option.none, Option.none⟩, by decide, by decide, by decide⟩
  · exact (C3_catalog_matching ⟨60, some ⟨0, 7, 2, 3, 4⟩, some ⟨0, 7, 2, 3, 4⟩⟩ 2020).2.2
      [] entryC [] (by simp) (by simp)
      ⟨⟨60, some dummyStandard, some dummyDaylight⟩, by decide, by decide, by decide⟩

end Exchangelib
